import Mathlib

/-!
Verification of `theano/gof/compilelock.py` (branch `bartvm/Theano`).

The module under study implements a cross-process advisory directory lock:

* `lock_ctx(lock_dir, keep_lock)` — a context manager that opens
  `<lock_dir>/.theano_lock` in write mode (`'w'`), takes an exclusive
  `fcntl.lockf` lock on it, yields, and on normal exit unlocks unless
  `keep_lock` is set; the `with open(...)` block then closes the file.
* `get_lock(lock_dir)` — opens and locks the same sentinel file, then
  `assert not getattr(get_lock, 'f', None)` and records the handle in the
  function attribute `get_lock.f`.
* `release_lock()` — `assert get_lock.f`, unlocks, closes, deletes the
  attribute.

The embedding below models the POSIX semantics of the primitives the code
calls, which is where the locking behaviour comes from:

* `open(path, 'w')` fails when the parent directory does not exist
  (`FileNotFoundError`, modelled as `DirectoryUnavailable`), otherwise
  creates-or-truncates the file and returns a fresh descriptor.
* `fcntl.lockf(f, LOCK_EX)` takes a POSIX record lock.  Record locks are
  owned by the *process*: a request conflicts only with a lock held by a
  *different* process, so a process never blocks on (and silently
  re-acquires over) its own lock.
* Closing any descriptor of a file drops *all* record locks the closing
  process holds on that file, whether or not they were acquired through
  that descriptor.
* The Python `assert` failures are modelled as the error results
  `ReentrancyViolation` (in `get_lock`) and `NotHeld` (in `release_lock`;
  the concrete Python signal there is the `AttributeError` raised by
  `get_lock.f` when the attribute is absent).

`config.compiledir` (the default value of `lock_dir`) is an external
configuration collaborator; the model always receives the directory
explicitly.  The ignored `**kw` parameters are elided.
-/

namespace CompileLock

abbrev Path := String
abbrev Pid := Nat
abbrev Fd := Nat

/-- Errors surfaced by the lock module: `DirectoryUnavailable` is the
`FileNotFoundError` of `open(..., 'w')` on a missing directory,
`ReentrancyViolation` the failed `assert` in `get_lock`, and `NotHeld` the
failure of `release_lock` when no handle is registered. -/
inductive LockErr where
  | DirectoryUnavailable
  | ReentrancyViolation
  | NotHeld
deriving DecidableEq

/-- Result of one call: it returns a value, raises an error, or blocks
waiting for the OS lock (a blocked call has not returned at all). -/
inductive LockResult (α : Type) where
  | ok (a : α)
  | err (e : LockErr)
  | blocked
deriving DecidableEq

/-- Whether a call returned normally. -/
def LockResult.isOk {α : Type} : LockResult α → Bool
  | .ok _ => true
  | _ => false

/-- An open Python file object: its file descriptor and the path it was
opened on. -/
structure FileHandle where
  fd : Fd
  path : Path
deriving DecidableEq

/-- Operating-system state visible to the lock module: the set of existing
directories, the regular files with their contents, the table of open
descriptors `(fd, owning process, path)`, a fresh-descriptor counter, and
the POSIX record locks `(path, owning process)` currently held. -/
structure OSState where
  dirs : List Path
  files : List (Path × String)
  fdTable : List (Fd × Pid × Path)
  nextFd : Fd
  locks : List (Path × Pid)
deriving DecidableEq

/-- Model of `os.path.join(dir, name)` for a relative `name`. -/
def joinPath (dir : Path) (name : String) : Path := dir ++ "/" ++ name

/-- The sentinel file used by every operation of the module:
`os.path.join(lock_dir, '.theano_lock')`. -/
def lockPath (dir : Path) : Path := joinPath dir ".theano_lock"

/-- Contents of the file at `p`, when it exists. -/
def fileContent (os : OSState) (p : Path) : Option String :=
  (os.files.find? (fun e => e.1 == p)).map (fun e => e.2)

/-- Whether a file exists at `p`. -/
def fileExists (os : OSState) (p : Path) : Bool :=
  (fileContent os p).isSome

/-- The process holding the POSIX record lock on `p`, if any. -/
def getOwner (os : OSState) (p : Path) : Option Pid :=
  (os.locks.find? (fun e => e.1 == p)).map (fun e => e.2)

/-- Model of `open(joinPath dir name, 'w')` by process `pid`: fails when
`dir` does not exist; otherwise creates or truncates the file and returns
a fresh descriptor on it. -/
def openW (os : OSState) (pid : Pid) (dir : Path) (name : String) :
    OSState × LockResult FileHandle :=
  if dir ∈ os.dirs then
    ({ dirs := os.dirs,
       files := (joinPath dir name, "") :: os.files.filter (fun e => e.1 != joinPath dir name),
       fdTable := (os.nextFd, pid, joinPath dir name) :: os.fdTable,
       nextFd := os.nextFd + 1,
       locks := os.locks },
     .ok ⟨os.nextFd, joinPath dir name⟩)
  else
    (os, .err .DirectoryUnavailable)

/-- A POSIX record-lock request on `p` by `pid` conflicts only with locks
held by other processes. -/
def lockAvailB (os : OSState) (pid : Pid) (p : Path) : Bool :=
  os.locks.all (fun e => e.1 != p || e.2 == pid)

/-- Propositional form of `lockAvailB`. -/
def lockAvail (os : OSState) (pid : Pid) (p : Path) : Prop :=
  ∀ e ∈ os.locks, e.1 = p → e.2 = pid

/-- Model of `fcntl.lockf(f, fcntl.LOCK_EX)` on the file at `p`: blocks
while another process holds the record lock; otherwise (re-)acquires it,
coalescing with any lock `pid` already holds on `p`. -/
def lockfEx (os : OSState) (pid : Pid) (p : Path) : OSState × LockResult Unit :=
  if lockAvailB os pid p then
    ({ os with locks := (p, pid) :: os.locks.filter (fun e => !(e.1 == p && e.2 == pid)) },
     .ok ())
  else
    (os, .blocked)

/-- Model of `fcntl.lockf(f, fcntl.LOCK_UN)`: drops `pid`'s record lock on
`p`. -/
def lockfUn (os : OSState) (pid : Pid) (p : Path) : OSState :=
  { os with locks := os.locks.filter (fun e => !(e.1 == p && e.2 == pid)) }

/-- Model of `f.close()` by `pid`: removes the descriptor and, per POSIX,
drops every record lock `pid` holds on the underlying file. -/
def closeFile (os : OSState) (pid : Pid) (h : FileHandle) : OSState :=
  { os with
      fdTable := os.fdTable.filter (fun e => e.1 != h.fd),
      locks := os.locks.filter (fun e => !(e.1 == h.path && e.2 == pid)) }

/-- The acquisition prefix shared by `lock_ctx` and `get_lock`:
`f = open(os.path.join(lock_dir, '.theano_lock'), 'w')` followed by
`fcntl.lockf(f, fcntl.LOCK_EX)`. -/
def lock_ctx_enter (os : OSState) (pid : Pid) (lock_dir : Path) :
    OSState × LockResult FileHandle :=
  match openW os pid lock_dir ".theano_lock" with
  | (os1, .ok h) =>
    match lockfEx os1 pid h.path with
    | (os2, .ok _) => (os2, .ok h)
    | (os2, .err e) => (os2, .err e)
    | (os2, .blocked) => (os2, .blocked)
  | (os1, .err e) => (os1, .err e)
  | (os1, .blocked) => (os1, .blocked)

/-- The tail of `lock_ctx` after the `yield`.  On a normal exit of the
caller's block (`raised = false`) with `keep_lock = false` the generator
executes `fcntl.lockf(f, fcntl.LOCK_UN)`; when the block raised, the
exception re-enters at the `yield` and the unlock is skipped.  In every
case the enclosing `with open(...)` block then closes `f`. -/
def lock_ctx_exit (os : OSState) (pid : Pid) (h : FileHandle)
    (keep_lock raised : Bool) : OSState :=
  closeFile (if keep_lock || raised then os else lockfUn os pid h.path) pid h

/-- One complete `with lock_ctx(lock_dir, keep_lock):` scope whose body
either returns (`raised = false`) or raises (`raised = true`). -/
def lock_ctx_run (os : OSState) (pid : Pid) (lock_dir : Path)
    (keep_lock raised : Bool) : OSState × LockResult Unit :=
  match lock_ctx_enter os pid lock_dir with
  | (os1, .ok h) => (lock_ctx_exit os1 pid h keep_lock raised, .ok ())
  | (os1, .err e) => (os1, .err e)
  | (os1, .blocked) => (os1, .blocked)

/-- Process-local module state: the function attribute `get_lock.f`
(absent when `reg = none`). -/
structure ProcSt where
  reg : Option FileHandle
deriving DecidableEq

/-- Model of `get_lock(lock_dir)`: open and lock the sentinel file, then
`assert not getattr(get_lock, 'f', None)` and record the handle.  The
assertion is checked after the descriptor is opened and locked, exactly as
in the source. -/
def get_lock (os : OSState) (ps : ProcSt) (pid : Pid) (lock_dir : Path) :
    OSState × ProcSt × LockResult Unit :=
  match openW os pid lock_dir ".theano_lock" with
  | (os1, .ok h) =>
    match lockfEx os1 pid h.path with
    | (os2, .ok _) =>
      match ps.reg with
      | some _ => (os2, ps, .err .ReentrancyViolation)
      | none => (os2, ⟨some h⟩, .ok ())
    | (os2, .err e) => (os2, ps, .err e)
    | (os2, .blocked) => (os2, ps, .blocked)
  | (os1, .err e) => (os1, ps, .err e)
  | (os1, .blocked) => (os1, ps, .blocked)

/-- Model of `release_lock()`: `assert get_lock.f` (an absent attribute is
the `NotHeld` failure), then unlock, close and delete the attribute. -/
def release_lock (os : OSState) (ps : ProcSt) (pid : Pid) :
    OSState × ProcSt × LockResult Unit :=
  match ps.reg with
  | none => (os, ps, .err .NotHeld)
  | some h => (closeFile (lockfUn os pid h.path) pid h, ⟨none⟩, .ok ())

/-- Explicit form of the state after a successful open-and-lock of the
sentinel file `p` by `pid`. -/
def afterAcquire (os : OSState) (pid : Pid) (p : Path) : OSState :=
  { dirs := os.dirs,
    files := (p, "") :: os.files.filter (fun e => e.1 != p),
    fdTable := (os.nextFd, pid, p) :: os.fdTable,
    nextFd := os.nextFd + 1,
    locks := (p, pid) :: os.locks.filter (fun e => !(e.1 == p && e.2 == pid)) }

lemma lockAvailB_iff {os : OSState} {pid : Pid} {p : Path} :
    lockAvailB os pid p = true ↔ lockAvail os pid p := by
  simp only [lockAvailB, lockAvail, List.all_eq_true, Bool.or_eq_true, bne_iff_ne,
    beq_iff_eq]
  constructor
  · intro H e he hp
    rcases H e he with h1 | h2
    · exact absurd hp h1
    · exact h2
  · intro H e he
    by_cases hp : e.1 = p
    · exact Or.inr (H e he hp)
    · exact Or.inl hp

lemma lock_ctx_enter_spec {os : OSState} {pid : Pid} {dir : Path}
    (hdir : dir ∈ os.dirs) (hav : lockAvail os pid (lockPath dir)) :
    lock_ctx_enter os pid dir =
      (afterAcquire os pid (lockPath dir), .ok ⟨os.nextFd, lockPath dir⟩) := by
  have hb : lockAvailB os pid (lockPath dir) = true := lockAvailB_iff.mpr hav
  unfold lock_ctx_enter openW lockfEx
  simp only [lockAvailB, lockPath] at hb
  simp only [if_pos hdir, lockPath]
  simp [lockAvailB, hb, afterAcquire]



lemma lock_ctx_enter_not_ok_of_blocked {os : OSState} {pid : Pid} {dir : Path}
    (hdir : dir ∈ os.dirs) (hav : ¬ lockAvail os pid (lockPath dir)) {os' : OSState}
    {h : FileHandle} : lock_ctx_enter os pid dir ≠ (os', .ok h) := by
  have hb : lockAvailB os pid (lockPath dir) = false := by
    rcases Bool.eq_false_or_eq_true (lockAvailB os pid (lockPath dir)) with h1 | h1
    · exact absurd (lockAvailB_iff.mp h1) hav
    · exact h1
  unfold lock_ctx_enter openW lockfEx
  simp only [lockAvailB, lockPath] at hb
  simp only [if_pos hdir, lockPath]
  simp [lockAvailB, hb]

lemma lock_ctx_enter_ok_inv {os os' : OSState} {pid : Pid} {dir : Path} {h : FileHandle}
    (H : lock_ctx_enter os pid dir = (os', .ok h)) :
    dir ∈ os.dirs ∧ lockAvail os pid (lockPath dir) ∧
      h = ⟨os.nextFd, lockPath dir⟩ ∧ os' = afterAcquire os pid (lockPath dir) := by
  by_cases hdir : dir ∈ os.dirs
  · by_cases hav : lockAvail os pid (lockPath dir)
    · rw [lock_ctx_enter_spec hdir hav] at H
      simp only [Prod.mk.injEq, LockResult.ok.injEq] at H
      exact ⟨hdir, hav, H.2.symm, H.1.symm⟩
    · exact absurd H (lock_ctx_enter_not_ok_of_blocked hdir hav)
  · unfold lock_ctx_enter openW at H
    simp [if_neg hdir] at H

lemma find?_filter_ne {A : Type} {l : List (Path × A)} {p q : Path} (hne : q ≠ p) :
    (l.filter (fun e => e.1 != p)).find? (fun e => e.1 == q) =
      l.find? (fun e => e.1 == q) := by
  induction l with
  | nil => rfl
  | cons e es ih =>
    by_cases hep : e.1 = p
    · rw [List.filter_cons_of_neg (by simp [hep]),
        List.find?_cons_of_neg es (by simp only [beq_iff_eq]; intro hq; exact hne (hq ▸ hep))]
      exact ih
    · rw [List.filter_cons_of_pos (by simp [hep])]
      by_cases heq : e.1 = q
      · rw [List.find?_cons_of_pos (List.filter (fun e => e.1 != p) es) (by simp [heq]), List.find?_cons_of_pos es (by simp [heq])]
      · rw [List.find?_cons_of_neg (List.filter (fun e => e.1 != p) es) (by simp [heq]), List.find?_cons_of_neg es (by simp [heq])]
        exact ih

lemma getOwner_afterAcquire (os : OSState) (pid : Pid) (p : Path) :
    getOwner (afterAcquire os pid p) p = some pid := by
  unfold getOwner afterAcquire
  rw [List.find?_cons_of_pos _ (by simp)]
  rfl

lemma fileContent_afterAcquire (os : OSState) (pid : Pid) (p : Path) :
    fileContent (afterAcquire os pid p) p = some "" := by
  unfold fileContent afterAcquire
  rw [List.find?_cons_of_pos _ (by simp)]
  rfl

lemma fileExists_afterAcquire_of {os : OSState} {pid : Pid} {p q : Path}
    (hq : fileExists os q = true) : fileExists (afterAcquire os pid p) q = true := by
  by_cases hpq : q = p
  · subst hpq
    simp [fileExists, fileContent_afterAcquire]
  · unfold fileExists fileContent afterAcquire at *
    rw [List.find?_cons_of_neg _ (by simp [Ne.symm hpq]), find?_filter_ne hpq]
    exact hq

lemma lock_ctx_exit_locks_sub {os : OSState} {pid : Pid} {h : FileHandle}
    {keep raised : Bool} {e : Path × Pid}
    (he : e ∈ (lock_ctx_exit os pid h keep raised).locks) :
    e ∈ os.locks ∧ ¬(e.1 = h.path ∧ e.2 = pid) := by
  unfold lock_ctx_exit closeFile lockfUn at he
  by_cases hk : (keep || raised) = true
  · rw [if_pos hk] at he
    simp only [List.mem_filter] at he
    refine ⟨he.1, fun hcl => ?_⟩
    have h2 := he.2
    simp [hcl.1, hcl.2] at h2
  · rw [if_neg hk] at he
    simp only [List.mem_filter] at he
    refine ⟨he.1.1, fun hcl => ?_⟩
    have h2 := he.2
    simp [hcl.1, hcl.2] at h2

lemma lock_ctx_exit_dirs (os : OSState) (pid : Pid) (h : FileHandle) (keep raised : Bool) :
    (lock_ctx_exit os pid h keep raised).dirs = os.dirs := by
  unfold lock_ctx_exit closeFile lockfUn
  split <;> rfl

lemma lock_ctx_exit_files (os : OSState) (pid : Pid) (h : FileHandle) (keep raised : Bool) :
    (lock_ctx_exit os pid h keep raised).files = os.files := by
  unfold lock_ctx_exit closeFile lockfUn
  split <;> rfl

lemma lock_ctx_run_ok_inv {os os' : OSState} {pid : Pid} {dir : Path} {keep raised : Bool}
    (H : lock_ctx_run os pid dir keep raised = (os', .ok ())) :
    dir ∈ os.dirs ∧ lockAvail os pid (lockPath dir) ∧
      os' = lock_ctx_exit (afterAcquire os pid (lockPath dir)) pid
              ⟨os.nextFd, lockPath dir⟩ keep raised := by
  rcases hE : lock_ctx_enter os pid dir with ⟨osA, r⟩
  unfold lock_ctx_run at H
  rw [hE] at H
  cases r with
  | ok h =>
    obtain ⟨hdir, hav, rfl, rfl⟩ := lock_ctx_enter_ok_inv hE
    simp only [Prod.mk.injEq] at H
    exact ⟨hdir, hav, H.1.symm⟩
  | err e => simp at H
  | blocked => simp at H

lemma locks_cleared_of_run_ok {os os' : OSState} {pid : Pid} {dir : Path}
    {keep raised : Bool} (H : lock_ctx_run os pid dir keep raised = (os', .ok ())) :
    ∀ e ∈ os'.locks, e.1 ≠ lockPath dir := by
  obtain ⟨hdir, hav, rfl⟩ := lock_ctx_run_ok_inv H
  intro e he
  obtain ⟨heA, hne⟩ := lock_ctx_exit_locks_sub he
  simp only [afterAcquire, List.mem_cons, List.mem_filter] at heA
  rcases heA with rfl | ⟨hmem, hnp⟩
  · exact absurd ⟨rfl, rfl⟩ hne
  · intro hep
    exact hne ⟨hep, hav e hmem hep⟩

lemma getOwner_eq_none_of {os : OSState} {p : Path}
    (h : ∀ e ∈ os.locks, e.1 ≠ p) : getOwner os p = none := by
  unfold getOwner
  rw [List.find?_eq_none.mpr]
  · rfl
  · intro e he
    simpa using h e he

lemma lockAvail_of_cleared {os : OSState} {p : Path} (h : ∀ e ∈ os.locks, e.1 ≠ p)
    (pid : Pid) : lockAvail os pid p :=
  fun e he hep => absurd hep (h e he)

lemma get_lock_spec_free {os : OSState} {ps : ProcSt} {pid : Pid} {dir : Path}
    (hreg : ps.reg = none) (hdir : dir ∈ os.dirs)
    (hav : lockAvail os pid (lockPath dir)) :
    get_lock os ps pid dir =
      (afterAcquire os pid (lockPath dir), ⟨some ⟨os.nextFd, lockPath dir⟩⟩, .ok ()) := by
  have hb : lockAvailB os pid (lockPath dir) = true := lockAvailB_iff.mpr hav
  unfold get_lock openW lockfEx
  simp only [lockAvailB, lockPath] at hb
  simp only [if_pos hdir, lockPath]
  simp [lockAvailB, hb, afterAcquire, hreg]

lemma get_lock_reentrant {os : OSState} {ps : ProcSt} {pid : Pid} {dir : Path}
    {h : FileHandle} (hreg : ps.reg = some h) (hdir : dir ∈ os.dirs)
    (hav : lockAvail os pid (lockPath dir)) :
    (get_lock os ps pid dir).2.2 = .err .ReentrancyViolation := by
  have hb : lockAvailB os pid (lockPath dir) = true := lockAvailB_iff.mpr hav
  unfold get_lock openW lockfEx
  simp only [lockAvailB, lockPath] at hb
  simp only [if_pos hdir, lockPath]
  simp [lockAvailB, hb, hreg]

lemma get_lock_blocked {os : OSState} {ps : ProcSt} {pid : Pid} {dir : Path}
    (hdir : dir ∈ os.dirs) (hav : ¬ lockAvail os pid (lockPath dir)) :
    (get_lock os ps pid dir).2.2 = .blocked := by
  have hb : lockAvailB os pid (lockPath dir) = false := by
    rcases Bool.eq_false_or_eq_true (lockAvailB os pid (lockPath dir)) with h1 | h1
    · exact absurd (lockAvailB_iff.mp h1) hav
    · exact h1
  unfold get_lock openW lockfEx
  simp only [lockAvailB, lockPath] at hb
  simp only [if_pos hdir, lockPath]
  simp [lockAvailB, hb]

lemma get_lock_ok_inv {os os1 : OSState} {ps ps1 : ProcSt} {pid : Pid} {dir : Path}
    (H : get_lock os ps pid dir = (os1, ps1, .ok ())) :
    ps.reg = none ∧ dir ∈ os.dirs ∧ lockAvail os pid (lockPath dir) ∧
      os1 = afterAcquire os pid (lockPath dir) ∧
      ps1 = ⟨some ⟨os.nextFd, lockPath dir⟩⟩ := by
  by_cases hdir : dir ∈ os.dirs
  · by_cases hav : lockAvail os pid (lockPath dir)
    · cases hreg : ps.reg with
      | none =>
        rw [get_lock_spec_free hreg hdir hav] at H
        simp only [Prod.mk.injEq] at H
        exact ⟨by simp [hreg], hdir, hav, H.1.symm, H.2.1.symm⟩
      | some h =>
        have h2 := get_lock_reentrant hreg hdir hav
        rw [H] at h2
        simp at h2
    · have h2 := @get_lock_blocked os ps pid dir hdir hav
      rw [H] at h2
      simp at h2
  · unfold get_lock openW at H
    simp [if_neg hdir] at H

lemma release_lock_none {os : OSState} {ps : ProcSt} {pid : Pid} (hreg : ps.reg = none) :
    release_lock os ps pid = (os, ps, .err .NotHeld) := by
  unfold release_lock
  rw [hreg]

lemma release_lock_some {os : OSState} {ps : ProcSt} {pid : Pid} {h : FileHandle}
    (hreg : ps.reg = some h) :
    release_lock os ps pid = (closeFile (lockfUn os pid h.path) pid h, ⟨none⟩, .ok ()) := by
  unfold release_lock
  rw [hreg]



lemma fileContent_lock_ctx_exit (os : OSState) (pid : Pid) (h : FileHandle)
    (keep raised : Bool) (p : Path) :
    fileContent (lock_ctx_exit os pid h keep raised) p = fileContent os p := by
  unfold fileContent
  rw [lock_ctx_exit_files]

lemma release_lock_files (os : OSState) (ps : ProcSt) (pid : Pid) :
    (release_lock os ps pid).1.files = os.files := by
  unfold release_lock closeFile lockfUn
  cases ps.reg <;> rfl

lemma lockAvail_afterAcquire {os : OSState} {pid : Pid} {p : Path}
    (hav : lockAvail os pid p) : lockAvail (afterAcquire os pid p) pid p := by
  intro e he hep
  simp only [afterAcquire, List.mem_cons, List.mem_filter] at he
  rcases he with rfl | ⟨hmem, _⟩
  · rfl
  · exact hav e hmem hep

/-- C2: with `keep_after_scope = false` the exclusive lock is released on
every exit path of the scope, including when the caller's block raises
(`raised = true`): afterwards nobody owns the sentinel lock and a fresh
scoped acquisition of the same directory by any process returns
successfully instead of blocking. -/
theorem C2_release_on_all_exit_paths (os os' : OSState) (pid pid2 : Pid) (dir : Path)
    (raised : Bool)
    (H : lock_ctx_run os pid dir false raised = (os', .ok ())) :
    getOwner os' (lockPath dir) = none ∧
      (lock_ctx_enter os' pid2 dir).2.isOk = true := by
  have hcl := locks_cleared_of_run_ok H
  obtain ⟨hdir, hav, hos⟩ := lock_ctx_run_ok_inv H
  have hdir2 : dir ∈ os'.dirs := by
    rw [hos, lock_ctx_exit_dirs]
    exact hdir
  refine ⟨getOwner_eq_none_of hcl, ?_⟩
  rw [lock_ctx_enter_spec hdir2 (lockAvail_of_cleared hcl pid2)]
  rfl

theorem C2_witness :
    getOwner (lock_ctx_run ⟨["/d"], [], [], 0, []⟩ 1 "/d" false true).1
        (lockPath "/d") = none ∧
      (lock_ctx_enter (lock_ctx_run ⟨["/d"], [], [], 0, []⟩ 1 "/d" false true).1
        2 "/d").2.isOk = true :=
  C2_release_on_all_exit_paths ⟨["/d"], [], [], 0, []⟩
    (lock_ctx_run ⟨["/d"], [], [], 0, []⟩ 1 "/d" false true).1 1 2 "/d" true rfl

/-- C3 (code bug): a scope with `keep_lock = true` that exits normally does
NOT leave the lock held.  The generator skips the explicit unlock, but the
enclosing `with open(...)` block closes the descriptor, and closing drops
the process's POSIX record lock; afterwards nobody owns the sentinel lock
and an acquisition by another process succeeds immediately instead of
blocking. -/
theorem C3_keep_lock_not_kept :
    (lock_ctx_run ⟨["/d"], [], [], 0, []⟩ 1 "/d" true false).2 = .ok () ∧
      getOwner (lock_ctx_run ⟨["/d"], [], [], 0, []⟩ 1 "/d" true false).1
        (lockPath "/d") = none ∧
      (lock_ctx_enter (lock_ctx_run ⟨["/d"], [], [], 0, []⟩ 1 "/d" true false).1
        2 "/d").2.isOk = true := by
  decide

/-- C4: after a successful `get_lock` with no intervening `release_lock`,
a second `get_lock` from the same process fails with the reentrancy
assertion rather than succeeding, queueing, or being a no-op. -/
theorem C4_reacquire_fails (os os1 : OSState) (ps ps1 : ProcSt) (pid : Pid) (dir : Path)
    (H : get_lock os ps pid dir = (os1, ps1, .ok ())) :
    (get_lock os1 ps1 pid dir).2.2 = .err .ReentrancyViolation := by
  obtain ⟨hreg, hdir, hav, rfl, rfl⟩ := get_lock_ok_inv H
  exact get_lock_reentrant rfl hdir (lockAvail_afterAcquire hav)

theorem C4_witness :
    (get_lock (get_lock ⟨["/d"], [], [], 0, []⟩ ⟨none⟩ 1 "/d").1
        (get_lock ⟨["/d"], [], [], 0, []⟩ ⟨none⟩ 1 "/d").2.1 1 "/d").2.2 =
      .err .ReentrancyViolation :=
  C4_reacquire_fails ⟨["/d"], [], [], 0, []⟩
    (get_lock ⟨["/d"], [], [], 0, []⟩ ⟨none⟩ 1 "/d").1 ⟨none⟩
    (get_lock ⟨["/d"], [], [], 0, []⟩ ⟨none⟩ 1 "/d").2.1 1 "/d" rfl

/-- C5: in any process state where no explicit lock is registered (which
is also the state after a completed `release_lock`), `release_lock` fails
with `NotHeld` and changes nothing. -/
theorem C5_release_without_acquire_fails (os : OSState) (ps : ProcSt) (pid : Pid)
    (hreg : ps.reg = none) :
    release_lock os ps pid = (os, ps, .err .NotHeld) :=
  release_lock_none hreg

theorem C5_witness :
    release_lock ⟨["/d"], [], [], 0, []⟩ ⟨none⟩ 1 =
      (⟨["/d"], [], [], 0, []⟩, ⟨none⟩, .err .NotHeld) :=
  C5_release_without_acquire_fails ⟨["/d"], [], [], 0, []⟩ ⟨none⟩ 1 rfl

/-- C6: a scoped acquisition on a nonexistent directory fails with
`DirectoryUnavailable`, the error is surfaced immediately without any
internal retry, and the state is completely unchanged — in particular the
directory is not created. -/
theorem C6_missing_directory_fails (os : OSState) (pid : Pid) (dir : Path)
    (keep raised : Bool) (hdir : ¬ dir ∈ os.dirs) :
    lock_ctx_run os pid dir keep raised = (os, .err .DirectoryUnavailable) := by
  unfold lock_ctx_run lock_ctx_enter openW
  simp [if_neg hdir]

theorem C6_witness :
    lock_ctx_run ⟨[], [], [], 0, []⟩ 1 "/d" false false =
      (⟨[], [], [], 0, []⟩, .err .DirectoryUnavailable) :=
  C6_missing_directory_fails ⟨[], [], [], 0, []⟩ 1 "/d" false false (by decide)



/-- C7: when an explicit lock is registered, `release_lock` succeeds,
drops the process's advisory lock on the registered handle's path, closes
the underlying file descriptor, and clears the registry back to the empty
state. -/
theorem C7_release_clears_state (os : OSState) (ps : ProcSt) (pid : Pid) (h : FileHandle)
    (hreg : ps.reg = some h) :
    (release_lock os ps pid).2.2 = .ok () ∧
      (release_lock os ps pid).2.1.reg = none ∧
      ((release_lock os ps pid).1.locks.all
        (fun e => !(e.1 == h.path && e.2 == pid))) = true ∧
      ((release_lock os ps pid).1.fdTable.all (fun e => e.1 != h.fd)) = true := by
  rw [release_lock_some hreg]
  refine ⟨rfl, rfl, ?_, ?_⟩
  · rw [List.all_eq_true]
    intro e he
    simp only [closeFile, lockfUn, List.mem_filter] at he
    exact he.2
  · rw [List.all_eq_true]
    intro e he
    simp only [closeFile, lockfUn, List.mem_filter] at he
    exact he.2

theorem C7_witness :
    (release_lock ⟨["/d"], [(lockPath "/d", "")], [(0, 1, lockPath "/d")], 1,
        [(lockPath "/d", 1)]⟩ ⟨some ⟨0, lockPath "/d"⟩⟩ 1).2.2 = .ok () ∧
      (release_lock ⟨["/d"], [(lockPath "/d", "")], [(0, 1, lockPath "/d")], 1,
        [(lockPath "/d", 1)]⟩ ⟨some ⟨0, lockPath "/d"⟩⟩ 1).2.1.reg = none ∧
      ((release_lock ⟨["/d"], [(lockPath "/d", "")], [(0, 1, lockPath "/d")], 1,
        [(lockPath "/d", 1)]⟩ ⟨some ⟨0, lockPath "/d"⟩⟩ 1).1.locks.all
          (fun e => !(e.1 == (⟨0, lockPath "/d"⟩ : FileHandle).path && e.2 == 1))) = true ∧
      ((release_lock ⟨["/d"], [(lockPath "/d", "")], [(0, 1, lockPath "/d")], 1,
        [(lockPath "/d", 1)]⟩ ⟨some ⟨0, lockPath "/d"⟩⟩ 1).1.fdTable.all
          (fun e => e.1 != (⟨0, lockPath "/d"⟩ : FileHandle).fd)) = true :=
  C7_release_clears_state
    ⟨["/d"], [(lockPath "/d", "")], [(0, 1, lockPath "/d")], 1, [(lockPath "/d", 1)]⟩
    ⟨some ⟨0, lockPath "/d"⟩⟩ 1 ⟨0, lockPath "/d"⟩ rfl

/-- C8: no lock operation deletes the sentinel file.  A successful scoped
acquisition leaves the sentinel file on disk after the scope exits,
preserves every file that existed before, and `release_lock` leaves the
file system untouched. -/
theorem C8_sentinel_never_deleted (os os' os2 : OSState) (pid pid2 : Pid) (dir q : Path)
    (keep raised : Bool) (ps : ProcSt)
    (H : lock_ctx_run os pid dir keep raised = (os', .ok ()))
    (hq : fileExists os q = true) :
    fileExists os' (lockPath dir) = true ∧
      fileExists os' q = true ∧
      (release_lock os2 ps pid2).1.files = os2.files := by
  obtain ⟨hdir, hav, rfl⟩ := lock_ctx_run_ok_inv H
  refine ⟨?_, ?_, release_lock_files os2 ps pid2⟩
  · rw [fileExists, fileContent_lock_ctx_exit, fileContent_afterAcquire]
    rfl
  · rw [fileExists, fileContent_lock_ctx_exit]
    exact @fileExists_afterAcquire_of os pid (lockPath dir) q hq

theorem C8_witness :
    fileExists (lock_ctx_run ⟨["/d"], [("/d/other", "x")], [], 0, []⟩ 1 "/d" false
        false).1 (lockPath "/d") = true ∧
      fileExists (lock_ctx_run ⟨["/d"], [("/d/other", "x")], [], 0, []⟩ 1 "/d" false
        false).1 "/d/other" = true ∧
      (release_lock ⟨[], [], [], 0, []⟩ ⟨none⟩ 2).1.files =
        (⟨[], [], [], 0, []⟩ : OSState).files :=
  C8_sentinel_never_deleted ⟨["/d"], [("/d/other", "x")], [], 0, []⟩
    (lock_ctx_run ⟨["/d"], [("/d/other", "x")], [], 0, []⟩ 1 "/d" false false).1
    ⟨[], [], [], 0, []⟩ 1 2 "/d" "/d/other" false false ⟨none⟩ rfl (by decide)

/-- C9 counterexample: the sentinel file is not named `.lockfile`.  After
a successful scoped acquisition on the existing directory `/d` no file
exists at `/d/.lockfile`; the file the module created and locked is
`/d/.theano_lock`. -/
theorem C9_sentinel_name_counterexample :
    (lock_ctx_run ⟨["/d"], [], [], 0, []⟩ 1 "/d" false false).2 = .ok () ∧
      fileExists (lock_ctx_run ⟨["/d"], [], [], 0, []⟩ 1 "/d" false false).1
        ("/d" ++ "/.lockfile") = false ∧
      fileExists (lock_ctx_run ⟨["/d"], [], [], 0, []⟩ 1 "/d" false false).1
        ("/d" ++ "/.theano_lock") = true := by
  decide

/-- C9 (amended): every operation locks the same single sentinel file,
which always lives at `<directory_path>/.theano_lock` with that fixed
name: a scoped acquisition's handle is on `joinPath dir ".theano_lock"`
and that path is the one locked, and `get_lock` registers a handle on the
same fixed path and locks it. -/
theorem C9_sentinel_fixed_path (os os' os2 os3 : OSState) (ps2 ps3 : ProcSt)
    (pid pid2 : Pid) (dir dir2 : Path) (h : FileHandle)
    (H1 : lock_ctx_enter os pid dir = (os', .ok h))
    (H2 : get_lock os2 ps2 pid2 dir2 = (os3, ps3, .ok ())) :
    h.path = joinPath dir ".theano_lock" ∧
      ps3.reg.map (fun g => g.path) = some (joinPath dir2 ".theano_lock") ∧
      getOwner os' (joinPath dir ".theano_lock") = some pid ∧
      getOwner os3 (joinPath dir2 ".theano_lock") = some pid2 := by
  obtain ⟨hdir, hav, rfl, rfl⟩ := lock_ctx_enter_ok_inv H1
  obtain ⟨hreg, hdir2, hav2, rfl, rfl⟩ := get_lock_ok_inv H2
  exact ⟨rfl, rfl, getOwner_afterAcquire os pid (lockPath dir),
    getOwner_afterAcquire os2 pid2 (lockPath dir2)⟩

theorem C9_witness :
    (⟨0, lockPath "/d"⟩ : FileHandle).path = joinPath "/d" ".theano_lock" ∧
      (get_lock ⟨["/e"], [], [], 0, []⟩ ⟨none⟩ 2 "/e").2.1.reg.map (fun g => g.path) =
        some (joinPath "/e" ".theano_lock") ∧
      getOwner (lock_ctx_enter ⟨["/d"], [], [], 0, []⟩ 1 "/d").1
        (joinPath "/d" ".theano_lock") = some 1 ∧
      getOwner (get_lock ⟨["/e"], [], [], 0, []⟩ ⟨none⟩ 2 "/e").1
        (joinPath "/e" ".theano_lock") = some 2 :=
  C9_sentinel_fixed_path ⟨["/d"], [], [], 0, []⟩
    (lock_ctx_enter ⟨["/d"], [], [], 0, []⟩ 1 "/d").1
    ⟨["/e"], [], [], 0, []⟩
    (get_lock ⟨["/e"], [], [], 0, []⟩ ⟨none⟩ 2 "/e").1
    ⟨none⟩ (get_lock ⟨["/e"], [], [], 0, []⟩ ⟨none⟩ 2 "/e").2.1
    1 2 "/d" "/e" ⟨0, lockPath "/d"⟩ rfl rfl

/-- C10: both acquisition forms open the sentinel file in write mode,
truncating it: after either a scoped acquisition or `get_lock` succeeds,
the sentinel file's contents are empty, destroying whatever was stored
there before. -/
theorem C10_truncate_on_acquire (os os' os2 os3 : OSState) (ps ps3 : ProcSt)
    (pid pid2 : Pid) (dir dir2 : Path) (h : FileHandle)
    (H1 : lock_ctx_enter os pid dir = (os', .ok h))
    (H2 : get_lock os2 ps pid2 dir2 = (os3, ps3, .ok ())) :
    fileContent os' (lockPath dir) = some "" ∧
      fileContent os3 (lockPath dir2) = some "" := by
  obtain ⟨hdir, hav, rfl, rfl⟩ := lock_ctx_enter_ok_inv H1
  obtain ⟨hreg, hdir2, hav2, rfl, rfl⟩ := get_lock_ok_inv H2
  exact ⟨fileContent_afterAcquire os pid (lockPath dir),
    fileContent_afterAcquire os2 pid2 (lockPath dir2)⟩

theorem C10_witness :
    fileContent (lock_ctx_enter ⟨["/d"], [(lockPath "/d", "data")], [], 0, []⟩ 1
        "/d").1 (lockPath "/d") = some "" ∧
      fileContent (get_lock ⟨["/e"], [(lockPath "/e", "stale")], [], 0, []⟩ ⟨none⟩ 2
        "/e").1 (lockPath "/e") = some "" :=
  C10_truncate_on_acquire ⟨["/d"], [(lockPath "/d", "data")], [], 0, []⟩
    (lock_ctx_enter ⟨["/d"], [(lockPath "/d", "data")], [], 0, []⟩ 1 "/d").1
    ⟨["/e"], [(lockPath "/e", "stale")], [], 0, []⟩
    (get_lock ⟨["/e"], [(lockPath "/e", "stale")], [], 0, []⟩ ⟨none⟩ 2 "/e").1
    ⟨none⟩
    (get_lock ⟨["/e"], [(lockPath "/e", "stale")], [], 0, []⟩ ⟨none⟩ 2 "/e").2.1
    1 2 "/d" "/e" ⟨0, lockPath "/d"⟩ rfl rfl



/-- Execution phase of one scoped acquisition: not yet started, inside the
critical section holding handle `h`, or finished. -/
inductive Phase where
  | idle
  | inCS (h : FileHandle)
  | finished
deriving DecidableEq

/-- Whether a caller is currently inside its critical section. -/
def Phase.isActive : Phase → Bool
  | .inCS _ => true
  | _ => false

/-- One concurrent caller of `lock_ctx`: a caller identifier, the process
it runs in (two threads of one process share a `pid`), and its phase. -/
structure CallerSt where
  cid : Nat
  pid : Pid
  phase : Phase
deriving DecidableEq

/-- Global state of the concurrent system: the OS state plus every
caller's phase. -/
structure SysState where
  os : OSState
  callers : List CallerSt
deriving DecidableEq

/-- Update the phase of the caller with identifier `cid`. -/
def setPhase (cs : List CallerSt) (cid : Nat) (ph : Phase) : List CallerSt :=
  cs.map (fun c => if c.cid = cid then { c with phase := ph } else c)

/-- Interleaving semantics of concurrent `lock_ctx` scopes on the same
directory `dir`: an idle caller may complete the open-and-lock prefix
whenever `fcntl` grants it (the `.ok` requirement encodes that a blocked
caller takes no step), and a caller inside its critical section may leave
it, running the generator tail with any `keep_lock`/`raised` combination. -/
inductive Step (dir : Path) : SysState → SysState → Prop where
  | enter (s : SysState) (c : CallerSt) (os' : OSState) (h : FileHandle)
      (hc : c ∈ s.callers) (hidle : c.phase = .idle)
      (hacq : lock_ctx_enter s.os c.pid dir = (os', .ok h)) :
      Step dir s ⟨os', setPhase s.callers c.cid (.inCS h)⟩
  | leave (s : SysState) (c : CallerSt) (h : FileHandle) (keep raised : Bool)
      (hc : c ∈ s.callers) (hin : c.phase = .inCS h) :
      Step dir s ⟨lock_ctx_exit s.os c.pid h keep raised,
        setPhase s.callers c.cid .finished⟩

/-- Reachability in the interleaving semantics. -/
def Reach (dir : Path) : SysState → SysState → Prop :=
  Relation.ReflTransGen (Step dir)

/-- Two distinct concurrent acquisitions are both inside their critical
sections at the same time. -/
def BothInCS (s : SysState) : Prop :=
  ∃ c1 c2, c1 ∈ s.callers ∧ c2 ∈ s.callers ∧ c1.cid ≠ c2.cid ∧
    c1.phase.isActive = true ∧ c2.phase.isActive = true

/-- Pairwise-distinct process identifiers: distinct callers never share a
process. -/
abbrev DistinctPids (cs : List CallerSt) : Prop :=
  ∀ c1 ∈ cs, ∀ c2 ∈ cs, c1.cid ≠ c2.cid → c1.pid ≠ c2.pid

lemma setPhase_map_skel (cs : List CallerSt) (cid : Nat) (ph : Phase) :
    (setPhase cs cid ph).map (fun c => (c.cid, c.pid)) =
      cs.map (fun c => (c.cid, c.pid)) := by
  unfold setPhase
  rw [List.map_map]
  apply List.map_congr_left
  intro c hc
  by_cases h : c.cid = cid <;> simp [h]

lemma step_skel {dir : Path} {s s' : SysState} (hstep : Step dir s s') :
    s'.callers.map (fun c => (c.cid, c.pid)) =
      s.callers.map (fun c => (c.cid, c.pid)) := by
  cases hstep with
  | enter c os' h hc hcidle hacq => exact setPhase_map_skel s.callers c.cid (.inCS h)
  | leave c h keep raised hc hin => exact setPhase_map_skel s.callers c.cid .finished

lemma reach_skel {dir : Path} {s s' : SysState} (hr : Reach dir s s') :
    s'.callers.map (fun c => (c.cid, c.pid)) =
      s.callers.map (fun c => (c.cid, c.pid)) := by
  induction hr with
  | refl => rfl
  | tail hab hbc ih => rw [step_skel hbc, ih]

lemma mem_of_skel {init s : SysState}
    (hskel : s.callers.map (fun c => (c.cid, c.pid)) =
      init.callers.map (fun c => (c.cid, c.pid)))
    {c : CallerSt} (hc : c ∈ s.callers) :
    ∃ c0 ∈ init.callers, c0.cid = c.cid ∧ c0.pid = c.pid := by
  have hmm : (c.cid, c.pid) ∈ init.callers.map (fun c => (c.cid, c.pid)) := by
    rw [← hskel]
    exact List.mem_map_of_mem _ hc
  obtain ⟨c0, hc0, he⟩ := List.mem_map.mp hmm
  exact ⟨c0, hc0, congrArg Prod.fst he, congrArg Prod.snd he⟩

lemma distinct_of_skel {init s : SysState}
    (hskel : s.callers.map (fun c => (c.cid, c.pid)) =
      init.callers.map (fun c => (c.cid, c.pid)))
    (hd : DistinctPids init.callers) : DistinctPids s.callers := by
  intro c1 h1 c2 h2 hne
  obtain ⟨a, ha, hac, hap⟩ := mem_of_skel hskel h1
  obtain ⟨b, hb, hbc, hbp⟩ := mem_of_skel hskel h2
  rw [← hap, ← hbp]
  refine hd a ha b hb ?_
  rw [hac, hbc]
  exact hne

lemma nodup_cids_of_skel {init s : SysState}
    (hskel : s.callers.map (fun c => (c.cid, c.pid)) =
      init.callers.map (fun c => (c.cid, c.pid)))
    (hn : (init.callers.map (fun c => c.cid)).Nodup) :
    (s.callers.map (fun c => c.cid)).Nodup := by
  have hmap : s.callers.map (fun c => c.cid) = init.callers.map (fun c => c.cid) := by
    have h2 := congrArg (List.map Prod.fst) hskel
    simpa [List.map_map, Function.comp] using h2
  rw [hmap]
  exact hn

lemma mem_setPhase {cs : List CallerSt} {cid : Nat} {ph : Phase} {c : CallerSt}
    (hc : c ∈ setPhase cs cid ph) :
    ∃ c0 ∈ cs, c = if c0.cid = cid then { c0 with phase := ph } else c0 := by
  unfold setPhase at hc
  obtain ⟨c0, h0, he⟩ := List.mem_map.mp hc
  exact ⟨c0, h0, he.symm⟩

lemma owner_eq_of_avail {os : OSState} {pid : Pid} {p : Path} {q : Pid}
    (hav : lockAvail os pid p) (hq : getOwner os p = some q) : q = pid := by
  unfold getOwner at hq
  obtain ⟨e, he, h2⟩ := Option.map_eq_some'.mp hq
  have hmem := List.mem_of_find?_eq_some he
  have hpe : e.1 = p := by
    have h3 := List.find?_some he
    simpa using h3
  rw [← h2]
  exact hav e hmem hpe

/-- Invariant: while any caller is inside its critical section, the OS
lock on the sentinel file is owned by that caller's process. -/
def LockInv (dir : Path) (s : SysState) : Prop :=
  ∀ c ∈ s.callers, c.phase.isActive = true →
    getOwner s.os (lockPath dir) = some c.pid

lemma step_LockInv {dir : Path} {s s' : SysState} (hstep : Step dir s s')
    (hnodup : (s.callers.map (fun c => c.cid)).Nodup)
    (hdist : DistinctPids s.callers)
    (hinv : LockInv dir s) : LockInv dir s' := by
  cases hstep with
  | enter c os' h hc hcidle hacq =>
    obtain ⟨hdir, hav, hh, rfl⟩ := lock_ctx_enter_ok_inv hacq
    intro c' hc' hact
    obtain ⟨c0, h0, he⟩ := mem_setPhase hc'
    by_cases hcid : c0.cid = c.cid
    · have hc0c : c0 = c := List.inj_on_of_nodup_map hnodup h0 hc hcid
    
      have hpe : c'.pid = c.pid := by
        rw [he, if_pos hcid, ← hc0c]
      rw [getOwner_afterAcquire, hpe]
    · rw [if_neg hcid] at he
      have hact0 : c0.phase.isActive = true := by
        rw [← he]
        exact hact
      have hown := hinv c0 h0 hact0
      have hpe : c0.pid = c.pid := owner_eq_of_avail hav hown
      exact absurd hpe (hdist c0 h0 c hc hcid)
  | leave c h keep raised hc hin =>
    intro c' hc' hact
    obtain ⟨c0, h0, he⟩ := mem_setPhase hc'
    by_cases hcid : c0.cid = c.cid
    · rw [he, if_pos hcid] at hact
      simp [Phase.isActive] at hact
    · rw [if_neg hcid] at he
      have hact0 : c0.phase.isActive = true := by
        rw [← he]
        exact hact
      have hown := hinv c0 h0 hact0
      have hown2 : getOwner s.os (lockPath dir) = some c.pid := by
        refine hinv c hc ?_
        rw [hin]
        rfl
      have hpe : c0.pid = c.pid := by
        rw [hown] at hown2
        exact Option.some.inj hown2
      exact absurd hpe (hdist c0 h0 c hc hcid)

lemma reach_LockInv {dir : Path} {init s : SysState}
    (hnodup : (init.callers.map (fun c => c.cid)).Nodup)
    (hdist : DistinctPids init.callers)
    (hinv : LockInv dir init)
    (hr : Reach dir init s) : LockInv dir s := by
  induction hr with
  | refl => exact hinv
  | tail hab hbc ih =>
    have hskel := reach_skel hab
    exact step_LockInv hbc (nodup_cids_of_skel hskel hnodup)
      (distinct_of_skel hskel hdist) ih

/-- C1 (counterexample): when two concurrent scoped acquisitions of the
same directory come from the same process (two threads of one process),
both can be inside their critical sections at once, because a POSIX
record-lock request never conflicts with a lock the requesting process
already holds.  Starting from two idle same-process callers, a reachable
state has both inside the critical section. -/
theorem C1_same_process_counterexample :
    ¬ (∀ s : SysState,
        Reach "/d" ⟨⟨["/d"], [], [], 0, []⟩, [⟨0, 1, .idle⟩, ⟨1, 1, .idle⟩]⟩ s →
          ¬ BothInCS s) := by
  intro H
  refine H
    ⟨⟨["/d"], [(lockPath "/d", "")],
        [(1, 1, lockPath "/d"), (0, 1, lockPath "/d")], 2, [(lockPath "/d", 1)]⟩,
      [⟨0, 1, .inCS ⟨0, lockPath "/d"⟩⟩, ⟨1, 1, .inCS ⟨1, lockPath "/d"⟩⟩]⟩
    ?_ ?_
  · have h1 : Step "/d"
        ⟨⟨["/d"], [], [], 0, []⟩, [⟨0, 1, .idle⟩, ⟨1, 1, .idle⟩]⟩
        ⟨⟨["/d"], [(lockPath "/d", "")], [(0, 1, lockPath "/d")], 1,
            [(lockPath "/d", 1)]⟩,
          [⟨0, 1, .inCS ⟨0, lockPath "/d"⟩⟩, ⟨1, 1, .idle⟩]⟩ :=
      Step.enter ⟨⟨["/d"], [], [], 0, []⟩, [⟨0, 1, .idle⟩, ⟨1, 1, .idle⟩]⟩
        ⟨0, 1, .idle⟩
        ⟨["/d"], [(lockPath "/d", "")], [(0, 1, lockPath "/d")], 1,
          [(lockPath "/d", 1)]⟩
        ⟨0, lockPath "/d"⟩ (by decide) rfl (by decide)
    have h2 : Step "/d"
        ⟨⟨["/d"], [(lockPath "/d", "")], [(0, 1, lockPath "/d")], 1,
            [(lockPath "/d", 1)]⟩,
          [⟨0, 1, .inCS ⟨0, lockPath "/d"⟩⟩, ⟨1, 1, .idle⟩]⟩
        ⟨⟨["/d"], [(lockPath "/d", "")],
            [(1, 1, lockPath "/d"), (0, 1, lockPath "/d")], 2, [(lockPath "/d", 1)]⟩,
          [⟨0, 1, .inCS ⟨0, lockPath "/d"⟩⟩, ⟨1, 1, .inCS ⟨1, lockPath "/d"⟩⟩]⟩ :=
      Step.enter
        ⟨⟨["/d"], [(lockPath "/d", "")], [(0, 1, lockPath "/d")], 1,
            [(lockPath "/d", 1)]⟩,
          [⟨0, 1, .inCS ⟨0, lockPath "/d"⟩⟩, ⟨1, 1, .idle⟩]⟩
        ⟨1, 1, .idle⟩
        ⟨["/d"], [(lockPath "/d", "")],
          [(1, 1, lockPath "/d"), (0, 1, lockPath "/d")], 2, [(lockPath "/d", 1)]⟩
        ⟨1, lockPath "/d"⟩ (by decide) rfl (by decide)
    exact Relation.ReflTransGen.tail (Relation.ReflTransGen.single h1) h2
  · exact ⟨⟨0, 1, .inCS ⟨0, lockPath "/d"⟩⟩, ⟨1, 1, .inCS ⟨1, lockPath "/d"⟩⟩,
      by decide, by decide, by decide, rfl, rfl⟩

/-- C1 (amended): for concurrent scoped acquisitions of the same directory
from pairwise distinct processes, at most one caller is inside its
critical section at any time: no reachable state has two distinct callers
simultaneously inside their critical sections. -/
theorem C1_mutual_exclusion_distinct_pids (dir : Path) (init s : SysState)
    (hnodup : (init.callers.map (fun c => c.cid)).Nodup)
    (hdist : DistinctPids init.callers)
    (hidle : ∀ c ∈ init.callers, c.phase = .idle)
    (hr : Reach dir init s) :
    ¬ BothInCS s := by
  have hinv0 : LockInv dir init := by
    intro c hc hact
    rw [hidle c hc] at hact
    simp [Phase.isActive] at hact
  have hinv := reach_LockInv hnodup hdist hinv0 hr
  have hskel := reach_skel hr
  have hdist2 := distinct_of_skel hskel hdist
  rintro ⟨c1, c2, h1, h2, hne, ha1, ha2⟩
  have o1 := hinv c1 h1 ha1
  have o2 := hinv c2 h2 ha2
  have hpe : c1.pid = c2.pid := by
    rw [o1] at o2
    exact Option.some.inj o2
  exact hdist2 c1 h1 c2 h2 hne hpe

theorem C1_witness :
    DistinctPids [⟨0, 1, .idle⟩, ⟨1, 2, .idle⟩] ∧
      ¬ BothInCS ⟨⟨["/d"], [], [], 0, []⟩, [⟨0, 1, .idle⟩, ⟨1, 2, .idle⟩]⟩ :=
  ⟨by decide,
    C1_mutual_exclusion_distinct_pids "/d"
      ⟨⟨["/d"], [], [], 0, []⟩, [⟨0, 1, .idle⟩, ⟨1, 2, .idle⟩]⟩
      ⟨⟨["/d"], [], [], 0, []⟩, [⟨0, 1, .idle⟩, ⟨1, 2, .idle⟩]⟩
      (by decide) (by decide) (by decide) Relation.ReflTransGen.refl⟩

end CompileLock
